import Mathlib

/-!
Shallow embedding of the RSI indicator engine, backtest simulator and alert
evaluator of the TradeChart repository (src/app/market_data.py,
src/app/backtest.py, src/scripts/rsi_alert.py).

Prices are modelled as exact rationals; a pandas column of length n is a
`List` of length n whose missing entries (NaN / pd.NA) are `none`.
-/

/-- Embeds `close.diff()` at index `i`: `none` at index 0 (and out of
range), otherwise `close[i] - close[i-1]`. -/
def deltaAt (cs : List ℚ) (i : Nat) : Option ℚ :=
  if i = 0 then none
  else
    match cs[i-1]?, cs[i]? with
    | some a, some b => some (b - a)
    | _, _ => none

/-- Embeds `gain = delta.clip(lower=0)` as a column. -/
def gains (cs : List ℚ) : List (Option ℚ) :=
  (List.range cs.length).map fun i => (deltaAt cs i).map fun d => max d 0

/-- Embeds `loss = -delta.clip(upper=0)` as a column. -/
def losses (cs : List ℚ) : List (Option ℚ) :=
  (List.range cs.length).map fun i => (deltaAt cs i).map fun d => max (-d) 0

/-- Embeds `xs.rolling(window=p, min_periods=p).mean()` at index `i`:
defined only when the window of the last `p` entries exists and contains
no missing value. -/
def rollingAt (p : Nat) (xs : List (Option ℚ)) (i : Nat) : Option ℚ :=
  if p ≤ i + 1 then
    if ((xs.drop (i + 1 - p)).take p).all Option.isSome then
      some ((((xs.drop (i + 1 - p)).take p).map fun o => o.getD 0).sum / (p : ℚ))
    else none
  else none

/-- One entry of the RSI column: `rs = avg_gain / avg_loss.replace({0: pd.NA})`
and `rsi = 100 - 100/(1+rs)`; a zero average loss is replaced by a missing
value, which propagates through the arithmetic, so the entry is `none`. -/
def rsiAt (cs : List ℚ) (p : Nat) (i : Nat) : Option ℚ :=
  match rollingAt p (gains cs) i, rollingAt p (losses cs) i with
  | some g, some l => if l = 0 then none else some (100 - 100 / (1 + g / l))
  | _, _ => none

/-- Embeds `compute_rsi` (src/app/market_data.py): the RSI column, one
entry per input row. -/
def compute_rsi (cs : List ℚ) (p : Nat) : List (Option ℚ) :=
  (List.range cs.length).map (rsiAt cs p)

-- Basic facts about the indicator columns.

theorem length_gains (cs : List ℚ) : (gains cs).length = cs.length := by
  simp [gains]

theorem length_losses (cs : List ℚ) : (losses cs).length = cs.length := by
  simp [losses]

theorem length_compute_rsi (cs : List ℚ) (p : Nat) :
    (compute_rsi cs p).length = cs.length := by
  simp [compute_rsi]

/-! ## Backtest simulator (src/app/backtest.py) -/

/-- One input row of the price frame after the coercion step: `none` models
a field whose parse failed (`errors="coerce"` producing NaT/NaN). Dates are
modelled as integers (ordered timestamps). -/
structure RawRow where
  date : Option Int
  close : Option ℚ
  deriving DecidableEq

/-- The input price frame: column presence flags and the coerced rows. -/
structure PriceDF where
  hasDateCol : Bool
  hasCloseCol : Bool
  rows : List RawRow
  deriving DecidableEq

/-- Embeds `df.dropna(subset=["Date", "Close"])` applied after coercion:
keep exactly the rows where both fields parsed. -/
def cleanRows (rows : List RawRow) : List (Int × ℚ) :=
  rows.filterMap fun r =>
    match r.date, r.close with
    | some d, some c => some (d, c)
    | _, _ => none

/-- Insert a row into a list already sorted ascending by date. -/
def insertByDate (x : Int × ℚ) : List (Int × ℚ) → List (Int × ℚ)
  | [] => [x]
  | y :: ys => if x.1 < y.1 then x :: y :: ys else y :: insertByDate x ys

/-- Embeds `df.sort_values("Date")`: sort ascending by date. -/
def sortByDate : List (Int × ℚ) → List (Int × ℚ)
  | [] => []
  | x :: xs => insertByDate x (sortByDate xs)

/-- Embeds `compute_rsi(df).dropna(subset=["RSI"])`: pair each row with its
RSI entry (period 14, the default used by `run_rsi_backtest`) and keep only
the rows whose RSI is defined, as `(date, close, rsi)` triples. -/
def annotate (rows : List (Int × ℚ)) : List (Int × ℚ × ℚ) :=
  (rows.zip (compute_rsi (rows.map Prod.snd) 14)).filterMap fun x =>
    x.2.map fun r => (x.1.1, x.1.2, r)

/-- The simulator state of one replay: starts `cash=1.0, shares=0.0,
has_position=False, trade_count=0`. -/
structure SimState where
  cash : ℚ
  shares : ℚ
  hasPosition : Bool
  tradeCount : Nat
  deriving DecidableEq

def initState : SimState := ⟨1, 0, false, 0⟩

/-- The signal check of one loop iteration of `run_rsi_backtest`: buy with
all cash when flat and `rsi <= buy_rsi`, else sell all shares when long
and `rsi >= sell_rsi`, else leave the state unchanged. -/
def tradeStep (buy sell : ℚ) (s : SimState) (close rsi : ℚ) : SimState :=
  if s.hasPosition = false ∧ rsi ≤ buy then
    ⟨0, s.cash / close, true, s.tradeCount + 1⟩
  else if s.hasPosition = true ∧ sell ≤ rsi then
    ⟨s.shares * close, 0, false, s.tradeCount + 1⟩
  else s

/-- One loop iteration of `run_rsi_backtest`: the signal check followed by
the mark-to-market equity record for the row. Returns the updated state and
the equity value appended for this row. -/
def stepRow (buy sell : ℚ) (s : SimState) (close rsi : ℚ) : SimState × ℚ :=
  (tradeStep buy sell s close rsi,
   (tradeStep buy sell s close rsi).cash
     + (tradeStep buy sell s close rsi).shares * close)

/-- The replay loop over the annotated rows `(close, rsi)`, threading the
state and accumulating the equity curve values in row order. -/
def replayAux (buy sell : ℚ) : SimState → List (ℚ × ℚ) → SimState × List ℚ
  | s, [] => (s, [])
  | s, r :: rs =>
    let st := stepRow buy sell s r.1 r.2
    let rest := replayAux buy sell st.1 rs
    (rest.1, st.2 :: rest.2)

def replay (buy sell : ℚ) (rows : List (ℚ × ℚ)) : SimState × List ℚ :=
  replayAux buy sell initState rows

/-- Embeds the `RsiBacktestResult` dataclass. -/
structure RsiBacktestResult where
  ticker : String
  strategy_return : ℚ
  buy_hold_return : ℚ
  trades : Nat
  latest_rsi : ℚ
  start_date : Int
  end_date : Int
  equity_curve : List (Int × ℚ)
  deriving DecidableEq

/-- Embeds `run_rsi_backtest` (src/app/backtest.py): validate, clean, sort,
annotate with RSI, replay the long-only strategy, and package the result;
`none` embeds Python's `None` return. -/
def run_rsi_backtest (ticker : String) (df : PriceDF) (buy sell : ℚ) :
    Option RsiBacktestResult :=
  if df.rows.isEmpty then none
  else if df.hasDateCol = false ∨ df.hasCloseCol = false then none
  else
    let cleaned := cleanRows df.rows
    if cleaned.isEmpty then none
    else
      let enriched := annotate (sortByDate cleaned)
      if enriched.length < 2 then none
      else
        let rp := replay buy sell (enriched.map fun t => (t.2.1, t.2.2))
        some
          ⟨ticker,
           rp.2.getLastD 0 - 1,
           (enriched.getLastD (0, 0, 0)).2.1 / (enriched.headD (0, 0, 0)).2.1 - 1,
           rp.1.tradeCount,
           (enriched.getLastD (0, 0, 0)).2.2,
           (enriched.headD (0, 0, 0)).1,
           (enriched.getLastD (0, 0, 0)).1,
           (enriched.map Prod.fst).zip rp.2⟩

/-! ## Alert evaluator (src/scripts/rsi_alert.py) -/

/-- The three exits of `check_ticker`: no price data or no defined RSI
(prints to stderr and returns `None`), RSI above the threshold (returns
`None`), or a match (returns the alert dict). -/
inductive CheckOutcome where
  | unevaluable : CheckOutcome
  | noMatch : ℚ → CheckOutcome
  | matched : ℚ → ℚ → CheckOutcome
  deriving DecidableEq

/-- Embeds `check_ticker`: the latest row with a defined RSI decides the
outcome; the comparison with the threshold is inclusive (`<=`). -/
def check_ticker (closes : List ℚ) (threshold : ℚ) : CheckOutcome :=
  if closes.isEmpty then .unevaluable
  else
    match ((compute_rsi closes 14).filterMap id).getLast? with
    | none => .unevaluable
    | some r => if r ≤ threshold then .matched r threshold else .noMatch r

/-- Embeds the collection loop of `run_alerts`: each ticker of the batch is
checked with its resolved threshold and the matches are appended in order. -/
def run_alerts_matches (batch : List (List ℚ × ℚ)) : List (ℚ × ℚ) :=
  batch.foldl
    (fun acc t =>
      match check_ticker t.1 t.2 with
      | .matched r th => acc ++ [(r, th)]
      | _ => acc)
    []

/-! ## Indicator engine lemmas -/

/-- The first entry of the gain column is missing, because the first
difference is. -/
theorem gains_head (cs : List ℚ) (h : 0 < cs.length) :
    (gains cs)[0]? = some none := by
  rw [gains, List.getElem?_map, List.getElem?_range h]
  simp [deltaAt]

/-- While the rolling window is not yet full of defined differences, the
RSI entry is missing. -/
theorem rsiAt_eq_none_of_lt (cs : List ℚ) (p i : Nat) (hp : 1 ≤ p)
    (hi : i < p) : rsiAt cs p i = none := by
  by_cases hip : p ≤ i + 1
  · have hpi : i + 1 = p := Nat.le_antisymm hi hip
    rcases cs with _ | ⟨c, cs'⟩
    · have hg : rollingAt p (gains []) i = some 0 := by
        simp [rollingAt, hip, gains]
      have hl : rollingAt p (losses []) i = some 0 := by
        simp [rollingAt, hip, losses]
      simp [rsiAt, hg, hl]
    · have hlen : 0 < (c :: cs').length := by simp
      have hwin : ((gains (c :: cs')).drop (i + 1 - p)).take p
          = (gains (c :: cs')).take p := by
        rw [hpi]; simp
      have hmem : (none : Option ℚ) ∈ (gains (c :: cs')).take p := by
        apply List.getElem?_mem (n := 0)
        rw [List.getElem?_take, if_pos (Nat.lt_of_lt_of_le Nat.zero_lt_one hp)]
        exact gains_head _ hlen
      have hall : ((gains (c :: cs')).take p).all Option.isSome = false := by
        by_contra hcon
        have := (List.all_eq_true.mp (eq_true_of_ne_false hcon)) _ hmem
        simp at this
      have hg : rollingAt p (gains (c :: cs')) i = none := by
        rw [rollingAt, if_pos hip]
        simp only [hwin, hall]
        simp
      simp [rsiAt, hg]
  · have hg : rollingAt p (gains cs) i = none := by
      rw [rollingAt, if_neg hip]
    simp [rsiAt, hg]

/-- Every defined entry of a column whose defined values are non-negative
has a non-negative rolling mean. -/
theorem rollingAt_nonneg (p : Nat) (xs : List (Option ℚ))
    (hxs : ∀ x ∈ xs, 0 ≤ x.getD 0) (i : Nat) (g : ℚ)
    (h : rollingAt p xs i = some g) : 0 ≤ g := by
  rw [rollingAt] at h
  split at h
  · split at h
    · have hg : ((((xs.drop (i + 1 - p)).take p).map fun o => o.getD 0).sum
          / (p : ℚ)) = g := by
        exact Option.some.inj h
      have hsum : 0 ≤ (((xs.drop (i + 1 - p)).take p).map fun o => o.getD 0).sum := by
        apply List.sum_nonneg
        intro y hy
        rcases List.mem_map.mp hy with ⟨x, hxw, hxy⟩
        have hx : x ∈ xs := List.mem_of_mem_drop (List.mem_of_mem_take hxw)
        rw [← hxy]
        exact hxs x hx
      rw [← hg]
      exact div_nonneg hsum (by positivity)
    · exact absurd h (by simp)
  · exact absurd h (by simp)

/-- Every defined value of the gain column is non-negative. -/
theorem gains_getD_nonneg (cs : List ℚ) :
    ∀ x ∈ gains cs, 0 ≤ x.getD 0 := by
  intro x hx
  rcases List.mem_map.mp hx with ⟨i, _, hxi⟩
  rw [← hxi]
  rcases hd : deltaAt cs i with _ | d
  · simp
  · simp [le_max_right]

/-- Every defined value of the loss column is non-negative. -/
theorem losses_getD_nonneg (cs : List ℚ) :
    ∀ x ∈ losses cs, 0 ≤ x.getD 0 := by
  intro x hx
  rcases List.mem_map.mp hx with ⟨i, _, hxi⟩
  rw [← hxi]
  rcases hd : deltaAt cs i with _ | d
  · simp
  · simp [le_max_right]

/-- C5: for every period `p ≥ 1` and every price series, the first `p` rows
of the RSI column are undefined, and a series with fewer than `p + 1`
points yields no defined RSI value at all. -/
theorem compute_rsi_warmup (cs : List ℚ) (p : Nat) (hp : 1 ≤ p) :
    (∀ i, i < p → (compute_rsi cs p).getD i none = none) ∧
    (cs.length < p + 1 → ∀ o ∈ compute_rsi cs p, o = none) := by
  constructor
  · intro i hi
    rw [List.getD_eq_getElem?_getD]
    by_cases hlen : i < cs.length
    · rw [compute_rsi, List.getElem?_map, List.getElem?_range hlen]
      simp [rsiAt_eq_none_of_lt cs p i hp hi]
    · rw [List.getElem?_eq_none
        (by simpa [length_compute_rsi] using Nat.le_of_not_lt hlen)]
      simp
  · intro hlen o ho
    rcases List.mem_map.mp ho with ⟨i, hi, hio⟩
    have hilt : i < cs.length := List.mem_range.mp hi
    rw [← hio]
    exact rsiAt_eq_none_of_lt cs p i hp (by omega)

theorem compute_rsi_warmup_witness :
    (compute_rsi [10] 2).getD 0 none = none ∧
    (∀ o ∈ compute_rsi ([10] : List ℚ) 2, o = none) :=
  ⟨(compute_rsi_warmup [10] 2 (by norm_num)).1 0 (by norm_num),
   (compute_rsi_warmup [10] 2 (by norm_num)).2 (by norm_num)⟩

/-- C6: every defined RSI value produced by compute_rsi lies in [0, 100]. -/
theorem compute_rsi_mem_bounds (cs : List ℚ) (p : Nat) (r : ℚ)
    (h : some r ∈ compute_rsi cs p) : 0 ≤ r ∧ r ≤ 100 := by
  rcases List.mem_map.mp h with ⟨i, _, hio⟩
  unfold rsiAt at hio
  split at hio
  · rename_i g l hg hl
    split at hio
    · exact absurd hio (by simp)
    · rename_i hlz
      have hrv : 100 - 100 / (1 + g / l) = r := Option.some.inj hio
      have hgn : 0 ≤ g := rollingAt_nonneg p (gains cs) (gains_getD_nonneg cs) i g hg
      have hln : 0 ≤ l := rollingAt_nonneg p (losses cs) (losses_getD_nonneg cs) i l hl
      have hx : 0 ≤ g / l := div_nonneg hgn hln
      have hb1 : 100 / (1 + g / l) ≤ 100 := div_le_self (by norm_num) (by linarith)
      have hb2 : 0 < 100 / (1 + g / l) := div_pos (by norm_num) (by linarith)
      rw [← hrv]
      constructor <;> linarith
  · exact absurd hio (by simp)

theorem compute_rsi_mem_bounds_witness : (0:ℚ) ≤ 50 ∧ (50:ℚ) ≤ 100 :=
  compute_rsi_mem_bounds [10, 9, 10] 2 50
    (by norm_num [compute_rsi, rsiAt, rollingAt, gains, losses, deltaAt,
      List.range_succ])

/-- C1: the code does not special-case a zero average loss to RSI = 100.
At the strictly increasing series 1, 2, 3 with period 2, the trailing
window at row 2 is full and its average loss is exactly zero, yet
`avg_loss.replace({0: pd.NA})` makes the row's RSI undefined: every entry
of the output column is missing, none is 100. -/
theorem compute_rsi_zero_loss_drops_row :
    rollingAt 2 (losses [1, 2, 3]) 2 = some 0 ∧
    compute_rsi [1, 2, 3] 2 = [none, none, none] := by
  constructor
  · norm_num [rollingAt, losses, deltaAt, List.range_succ]
  · norm_num [compute_rsi, rsiAt, rollingAt, gains, losses, deltaAt,
      List.range_succ]

/-! ## Backtest simulator lemmas -/

theorem replayAux_append (buy sell : ℚ) (s : SimState) (xs : List (ℚ × ℚ))
    (r : ℚ × ℚ) :
    replayAux buy sell s (xs ++ [r])
      = ((stepRow buy sell (replayAux buy sell s xs).1 r.1 r.2).1,
         (replayAux buy sell s xs).2
           ++ [(stepRow buy sell (replayAux buy sell s xs).1 r.1 r.2).2]) := by
  induction xs generalizing s with
  | nil => simp [replayAux]
  | cons x xs ih => simp [replayAux, ih]

/-- C2: one row of the replay, relative to the state reached on the
previous rows: a buy converts all cash to shares at the row's close and
increments the trade count, a sell converts all shares to cash at the
row's close and increments the trade count, otherwise the state is
unchanged; and the row's recorded equity is `cash + shares * close` of the
post-signal state at the row's close. -/
theorem replay_signal_step (buy sell close rsi : ℚ) (rows : List (ℚ × ℚ))
    (s t : SimState) (hs : s = (replay buy sell rows).1)
    (ht : t = (replay buy sell (rows ++ [(close, rsi)])).1) :
    (s.hasPosition = false → rsi ≤ buy →
      t = ⟨0, s.cash / close, true, s.tradeCount + 1⟩) ∧
    (s.hasPosition = true → sell ≤ rsi →
      t = ⟨s.shares * close, 0, false, s.tradeCount + 1⟩) ∧
    ((s.hasPosition = false → ¬rsi ≤ buy) →
     (s.hasPosition = true → ¬sell ≤ rsi) → t = s) ∧
    (replay buy sell (rows ++ [(close, rsi)])).2
      = (replay buy sell rows).2 ++ [t.cash + t.shares * close] := by
  subst hs ht
  simp only [replay, replayAux_append]
  refine ⟨?_, ?_, ?_, ?_⟩
  · intro h1 h2
    simp [stepRow, tradeStep, h1, h2]
  · intro h1 h2
    simp [stepRow, tradeStep, h1, h2]
  · intro h1 h2
    have c1 : ¬((replayAux buy sell initState rows).1.hasPosition = false
        ∧ rsi ≤ buy) := fun hc => h1 hc.1 hc.2
    have c2 : ¬((replayAux buy sell initState rows).1.hasPosition = true
        ∧ sell ≤ rsi) := fun hc => h2 hc.1 hc.2
    simp [stepRow, tradeStep, c1, c2]
  · simp [stepRow]

theorem replay_signal_step_witness :
    (replay 30 70 [((100 : ℚ), (20 : ℚ))]).1 = ⟨0, 1/100, true, 1⟩ := by
  have h := (replay_signal_step 30 70 100 20 [] ((replay 30 70 []).1)
      ((replay 30 70 ([] ++ [(100, 20)])).1) rfl rfl).1 rfl (by norm_num)
  simpa [replay, replayAux, initState] using h

/-- The inductive invariant of the long-only replay: the state is either
flat (no position, positive cash, zero shares) or long (position held,
zero cash, positive shares). -/
def flatOrLong (s : SimState) : Prop :=
  (s.hasPosition = false ∧ 0 < s.cash ∧ s.shares = 0) ∨
  (s.hasPosition = true ∧ s.cash = 0 ∧ 0 < s.shares)

theorem flatOrLong_tradeStep (buy sell close rsi : ℚ) (s : SimState)
    (hc : 0 < close) (h : flatOrLong s) :
    flatOrLong (tradeStep buy sell s close rsi) := by
  rcases h with ⟨hp, hcash, hsh⟩ | ⟨hp, hcash, hsh⟩
  · by_cases hb : rsi ≤ buy
    · have ht : tradeStep buy sell s close rsi
          = ⟨0, s.cash / close, true, s.tradeCount + 1⟩ := by
        simp [tradeStep, hp, hb]
      rw [ht]
      exact Or.inr ⟨rfl, rfl, div_pos hcash hc⟩
    · have ht : tradeStep buy sell s close rsi = s := by
        simp [tradeStep, hp, hb]
      rw [ht]
      exact Or.inl ⟨hp, hcash, hsh⟩
  · by_cases hse : sell ≤ rsi
    · have ht : tradeStep buy sell s close rsi
          = ⟨s.shares * close, 0, false, s.tradeCount + 1⟩ := by
        simp [tradeStep, hp, hse]
      rw [ht]
      exact Or.inl ⟨rfl, mul_pos hsh hc, rfl⟩
    · have ht : tradeStep buy sell s close rsi = s := by
        simp [tradeStep, hp, hse]
      rw [ht]
      exact Or.inr ⟨hp, hcash, hsh⟩

theorem replayAux_flatOrLong (buy sell : ℚ) (rows : List (ℚ × ℚ)) :
    ∀ s : SimState, flatOrLong s → (∀ r ∈ rows, 0 < r.1) →
      flatOrLong (replayAux buy sell s rows).1 := by
  induction rows with
  | nil => intro s hs _; simpa [replayAux] using hs
  | cons r rs ih =>
    intro s hs hpos
    simp only [replayAux, stepRow]
    exact ih _ (flatOrLong_tradeStep buy sell r.1 r.2 s (hpos r (by simp)) hs)
      (fun x hx => hpos x (by simp [hx]))

/-- C3: at every step of a replay over rows with positive closes, exactly
one of cash and shares is nonzero: either cash is zero and shares are not,
or cash is nonzero and shares are zero. -/
theorem replay_cash_xor_shares (buy sell : ℚ) (rows : List (ℚ × ℚ))
    (hpos : ∀ r ∈ rows, 0 < r.1) (n : Nat) :
    ((replay buy sell (rows.take n)).1.cash = 0
        ∧ (replay buy sell (rows.take n)).1.shares ≠ 0) ∨
    ((replay buy sell (rows.take n)).1.cash ≠ 0
        ∧ (replay buy sell (rows.take n)).1.shares = 0) := by
  have h := replayAux_flatOrLong buy sell (rows.take n) initState
    (Or.inl ⟨rfl, one_pos, rfl⟩)
    (fun r hr => hpos r (List.mem_of_mem_take hr))
  rcases h with ⟨_, hc, hs⟩ | ⟨_, hc, hs⟩
  · exact Or.inr ⟨ne_of_gt hc, hs⟩
  · exact Or.inl ⟨hc, ne_of_gt hs⟩

theorem replay_cash_xor_shares_witness :
    ((replay 30 70 ([((100 : ℚ), (20 : ℚ))].take 1)).1.cash = 0
        ∧ (replay 30 70 ([((100 : ℚ), (20 : ℚ))].take 1)).1.shares ≠ 0) ∨
    ((replay 30 70 ([((100 : ℚ), (20 : ℚ))].take 1)).1.cash ≠ 0
        ∧ (replay 30 70 ([((100 : ℚ), (20 : ℚ))].take 1)).1.shares = 0) :=
  replay_cash_xor_shares 30 70 [(100, 20)] (by norm_num) 1

/-! ## Validation and packaging lemmas -/

theorem length_insertByDate (x : Int × ℚ) (l : List (Int × ℚ)) :
    (insertByDate x l).length = l.length + 1 := by
  induction l with
  | nil => rfl
  | cons y ys ih => by_cases h : x.1 < y.1 <;> simp [insertByDate, h, ih]

theorem length_sortByDate (l : List (Int × ℚ)) :
    (sortByDate l).length = l.length := by
  induction l with
  | nil => rfl
  | cons x xs ih => simp [sortByDate, length_insertByDate, ih]

theorem length_annotate_le (rows : List (Int × ℚ)) :
    (annotate rows).length ≤ rows.length := by
  calc (annotate rows).length
      ≤ (rows.zip (compute_rsi (rows.map Prod.snd) 14)).length :=
        List.length_filterMap_le _ _
    _ ≤ rows.length := by rw [List.length_zip]; exact min_le_left _ _

/-- C4: the backtest returns an absent result exactly when the series is
empty, a required column is missing, fewer than 2 rows survive cleaning, or
fewer than 2 rows carry a defined RSI; being a total function, it raises no
error in any of these cases. -/
theorem run_rsi_backtest_none_iff (ticker : String) (df : PriceDF)
    (buy sell : ℚ) :
    run_rsi_backtest ticker df buy sell = none ↔
      (df.rows = [] ∨ df.hasDateCol = false ∨ df.hasCloseCol = false ∨
       (cleanRows df.rows).length < 2 ∨
       (annotate (sortByDate (cleanRows df.rows))).length < 2) := by
  simp only [run_rsi_backtest]
  split_ifs with h1 h2 h3 h4
  · simp [List.isEmpty_iff.mp h1]
  · constructor
    · intro _
      rcases h2 with h | h
      · exact Or.inr (Or.inl h)
      · exact Or.inr (Or.inr (Or.inl h))
    · intro _; rfl
  · have hc : (cleanRows df.rows).length < 2 := by
      rw [List.isEmpty_iff.mp h3]; simp
    simp [hc]
  · simp [h4]
  · have hne : ¬df.rows = [] := fun h => h1 (by simp [h])
    push_neg at h2
    have hcl : ¬(cleanRows df.rows).length < 2 := by
      intro hlt
      apply h4
      exact lt_of_le_of_lt
        ((length_annotate_le _).trans (length_sortByDate _).le) hlt
    simp [hne, h2.1, h2.2, hcl, h4]

/-- C7: in every returned result, the strategy return is the final recorded
equity minus 1 and the buy-and-hold return is last close over first close
minus 1, both taken over the RSI-annotated subrange of the cleaned series;
with first annotated close 100 and last annotated close 150 the
buy-and-hold return is exactly 1/2. -/
theorem run_rsi_backtest_returns (ticker : String) (df : PriceDF)
    (buy sell : ℚ) (res : RsiBacktestResult)
    (h : run_rsi_backtest ticker df buy sell = some res) :
    res.strategy_return
        = (replay buy sell ((annotate (sortByDate (cleanRows df.rows))).map
            fun t => (t.2.1, t.2.2))).2.getLastD 0 - 1 ∧
    res.buy_hold_return
        = ((annotate (sortByDate (cleanRows df.rows))).getLastD (0, 0, 0)).2.1
            / ((annotate (sortByDate (cleanRows df.rows))).headD (0, 0, 0)).2.1
            - 1 ∧
    (((annotate (sortByDate (cleanRows df.rows))).headD (0, 0, 0)).2.1 = 100 →
     ((annotate (sortByDate (cleanRows df.rows))).getLastD (0, 0, 0)).2.1 = 150 →
     res.buy_hold_return = 1/2) := by
  simp only [run_rsi_backtest] at h
  split_ifs at h
  rw [Option.some.inj h.symm]
  refine ⟨rfl, rfl, ?_⟩
  intro hf hl
  simp only [hf, hl]
  norm_num

/-- A concrete input frame: closes zigzag between 100 and 99 for 15 rows and
end at 150, so the RSI-annotated subrange is the last two rows with closes
100 and 150. -/
def c7df : PriceDF :=
  ⟨true, true,
   [⟨some 0, some 100⟩, ⟨some 1, some 99⟩, ⟨some 2, some 100⟩,
    ⟨some 3, some 99⟩, ⟨some 4, some 100⟩, ⟨some 5, some 99⟩,
    ⟨some 6, some 100⟩, ⟨some 7, some 99⟩, ⟨some 8, some 100⟩,
    ⟨some 9, some 99⟩, ⟨some 10, some 100⟩, ⟨some 11, some 99⟩,
    ⟨some 12, some 100⟩, ⟨some 13, some 99⟩, ⟨some 14, some 100⟩,
    ⟨some 15, some 150⟩]⟩

def c7res : RsiBacktestResult :=
  ⟨"T", 0, 1/2, 0, 1900/21, 14, 15, [(14, 1), (15, 1)]⟩

theorem run_rsi_backtest_returns_witness :
    run_rsi_backtest "T" c7df 30 70 = some c7res
      ∧ c7res.buy_hold_return = 1/2 := by
  have hann : annotate (sortByDate (cleanRows c7df.rows))
      = [(14, 100, 50), (15, 150, 1900/21)] := by
    norm_num [c7df, cleanRows, sortByDate, insertByDate, annotate, compute_rsi,
      rsiAt, rollingAt, gains, losses, deltaAt, List.range_succ,
      List.filterMap_cons]
  have hcl : (cleanRows c7df.rows).isEmpty = false := by
    simp [c7df, cleanRows]
  have hrun : run_rsi_backtest "T" c7df 30 70 = some c7res := by
    rw [run_rsi_backtest]
    rw [if_neg (by simp [c7df]), if_neg (by simp [c7df])]
    simp only [hcl, hann]
    norm_num [replay, replayAux, stepRow, tradeStep, initState, c7res]
  refine ⟨hrun, ?_⟩
  exact (run_rsi_backtest_returns "T" c7df 30 70 c7res hrun).2.2
    (by rw [hann]; norm_num) (by rw [hann]; norm_num)

/-! ## Alert evaluator lemmas -/

/-- The RSI reading used by the alert check: the last row of the series
whose RSI is defined. -/
def lastDefinedRsi (closes : List ℚ) : Option ℚ :=
  ((compute_rsi closes 14).filterMap id).getLast?

/-- C8: when a latest defined RSI exists, the check reports a match exactly
when that RSI is at or below the threshold (the boundary is inclusive). -/
theorem check_ticker_matches_iff (closes : List ℚ) (threshold r : ℚ)
    (h : lastDefinedRsi closes = some r) :
    (check_ticker closes threshold = CheckOutcome.matched r threshold
      ↔ r ≤ threshold) := by
  have hne : closes.isEmpty = false := by
    rcases closes with _ | ⟨c, cs⟩
    · simp [lastDefinedRsi, compute_rsi] at h
    · rfl
  rw [lastDefinedRsi] at h
  rw [check_ticker, hne]
  simp only [Bool.false_eq_true, if_false, h]
  by_cases hr : r ≤ threshold
  · simp [hr]
  · simp [hr]

/-- The boundary inputs: a latest RSI of exactly 40 with threshold 40. -/
def c8closes : List ℚ :=
  [10, 12, 12, 12, 12, 12, 12, 12, 12, 12, 12, 12, 12, 12, 9]

theorem check_ticker_matches_iff_witness :
    check_ticker c8closes 40 = CheckOutcome.matched 40 40 :=
  (check_ticker_matches_iff c8closes 40 40
    (by norm_num [lastDefinedRsi, c8closes, compute_rsi, rsiAt, rollingAt,
      gains, losses, deltaAt, List.range_succ, List.filterMap_cons])).mpr
    (by norm_num)

/-- C9: a ticker with an empty price series, or with no defined RSI row,
yields the unevaluable outcome (not a crash), and removing it from a batch
does not change the matches collected from the other tickers — in
particular every subsequent ticker is still evaluated. -/
theorem check_ticker_unevaluable_isolated (pre post : List (List ℚ × ℚ))
    (closes : List ℚ) (threshold : ℚ)
    (h : closes = [] ∨ (compute_rsi closes 14).filterMap id = []) :
    check_ticker closes threshold = CheckOutcome.unevaluable ∧
    run_alerts_matches (pre ++ (closes, threshold) :: post)
      = run_alerts_matches (pre ++ post) := by
  have hu : check_ticker closes threshold = CheckOutcome.unevaluable := by
    rcases h with h | h
    · simp [check_ticker, h]
    · by_cases he : closes.isEmpty
      · simp [check_ticker, he]
      · simp [check_ticker, he, h]
  refine ⟨hu, ?_⟩
  simp only [run_alerts_matches, List.foldl_append, List.foldl_cons]
  rw [hu]

theorem check_ticker_unevaluable_isolated_witness :
    check_ticker [] 40 = CheckOutcome.unevaluable ∧
    run_alerts_matches [([], 40), (c8closes, 40)]
      = run_alerts_matches [(c8closes, 40)] :=
  check_ticker_unevaluable_isolated [] [(c8closes, 40)] [] 40 (Or.inl rfl)

/-- C10: the cleaning step keeps exactly the rows whose date and close both
parse — it never tests the sign of the close, so a zero or negative close is
retained; under the precondition that every annotated close is positive,
every close used as a divisor by the replay (and by the buy-and-hold
computation, whose divisor is the first annotated close) is nonzero; and
the buy branch is not guarded against a zero close: when flat with
`rsi <= buy` it still divides the cash by the row's close, even at close 0. -/
theorem cleaning_keeps_rows_and_divisors (rows : List RawRow) (d : Int)
    (c : ℚ) (s : SimState) (buy sell rsi : ℚ)
    (hs : s.hasPosition = false) (hb : rsi ≤ buy) :
    ((d, c) ∈ cleanRows rows ↔
      ∃ r ∈ rows, r.date = some d ∧ r.close = some c) ∧
    ((∀ x ∈ annotate (sortByDate (cleanRows rows)), 0 < x.2.1) →
      (∀ x ∈ annotate (sortByDate (cleanRows rows)), x.2.1 ≠ 0) ∧
      (annotate (sortByDate (cleanRows rows)) ≠ [] →
        ((annotate (sortByDate (cleanRows rows))).headD (0, 0, 0)).2.1 ≠ 0)) ∧
    tradeStep buy sell s 0 rsi = ⟨0, s.cash / 0, true, s.tradeCount + 1⟩ := by
  refine ⟨?_, ?_, ?_⟩
  · rw [cleanRows, List.mem_filterMap]
    constructor
    · rintro ⟨a, ha, hfa⟩
      refine ⟨a, ha, ?_⟩
      rcases hd : a.date with _ | d'
      · rw [hd] at hfa; simp at hfa
      rcases hc : a.close with _ | c'
      · rw [hd, hc] at hfa; simp at hfa
      rw [hd, hc] at hfa
      simp only [Option.some.injEq, Prod.mk.injEq] at hfa
      exact ⟨by rw [hfa.1], by rw [hfa.2]⟩

    · rintro ⟨a, ha, had, hac⟩
      exact ⟨a, ha, by rw [had, hac]⟩
  · intro hpos
    refine ⟨fun x hx => ne_of_gt (hpos x hx), fun hne => ?_⟩
    rcases he : annotate (sortByDate (cleanRows rows)) with _ | ⟨x, xs⟩
    · exact absurd he hne
    · have hx : x ∈ annotate (sortByDate (cleanRows rows)) := by
        rw [he]; simp
      simpa [he] using ne_of_gt (hpos x hx)
  · simp [tradeStep, hs, hb]

theorem cleaning_keeps_rows_and_divisors_witness :
    ((0 : Int), (0 : ℚ)) ∈ cleanRows [⟨some 0, some 0⟩] ∧
    tradeStep 50 70 initState 0 40 = ⟨0, 1 / 0, true, 1⟩ := by
  have h := cleaning_keeps_rows_and_divisors [⟨some 0, some 0⟩] 0 0
    initState 50 70 40 rfl (by norm_num)
  exact ⟨h.1.mpr ⟨⟨some 0, some 0⟩, by simp, rfl, rfl⟩, h.2.2⟩
